import Mathlib

/-!
Verification of the CivicConnect issue lifecycle and geospatial assignment
engine against its JavaScript sources (civicconnnect-backend/server.js, the
seeding script, and the frontend submit handler). Timestamps are modelled as
milliseconds since the epoch (integers) in a fixed-offset timezone; JavaScript
numbers that only ever hold small integers or exact decimal fractions are
modelled as rationals, which agree with double precision on every value these
functions compute.
-/

/-- Milliseconds per hour: the amount a JavaScript Date timestamp advances when
setHours adds one integer hour. -/
def msPerHour : ℤ := 3600000

/-- Embeds the baseHours lookup of calculateTargetResolutionTime
(server.js lines 109-113): 24 hours for high, 72 for medium, 168 for low; the
expression baseHours[priority] || baseHours[medium] yields 72 for any other
priority string (own-property lookup on the object literal; the schema restricts
priority to the three enum values). -/
def baseHoursFor (priority : String) : ℚ :=
  if priority = "high" then 24
  else if priority = "medium" then 72
  else if priority = "low" then 168
  else 72

/-- Embeds the hour computation of calculateTargetResolutionTime (server.js
lines 115-123): upvoteReduction = min(upvotes*2, 50), adjusted hours =
base*(1 - upvoteReduction/100), floored at 4 hours. Rational arithmetic is
exact; the double-precision evaluation in JavaScript agrees with the exact
value to within 2^-40 of an hour, far below the 1/25-hour granularity of the
exact result, so the integer truncation performed below is unaffected. -/
def finalHoursFor (upvotes : ℕ) (priority : String) : ℚ :=
  let upvoteReduction : ℚ := min ((upvotes : ℚ) * 2) 50
  let reductionPercentage : ℚ := upvoteReduction / 100
  let baseTime : ℚ := baseHoursFor priority
  let adjustedHours : ℚ := baseTime * (1 - reductionPercentage)
  max adjustedHours 4

/-- Embeds calculateTargetResolutionTime (server.js lines 108-129). The
JavaScript targetTime.setHours(targetTime.getHours() + finalHours) adds
trunc(H + finalHours) - H hours, H being the integer hour-of-day, because
MakeTime (ECMA-262) truncates a fractional hour argument toward zero; since
finalHours is positive this adds exactly the floor of finalHours hours, and the
fractional part of finalHours is dropped. -/
def calculateTargetResolutionTime (upvotes : ℕ) (priority : String) (createdAt : ℤ) : ℤ :=
  createdAt + ⌊finalHoursFor upvotes priority⌋ * msPerHour

/-- Base hours exactly as claim C1 words them: high=24, medium=72, low=168,
an unrecognized priority treated as medium. Written from the claim, to be
compared with the source embedding above. -/
def claimBaseHours (priority : String) : ℚ :=
  if priority = "high" then 24 else if priority = "low" then 168 else 72

/-- Deadline exactly as claim C1 words it: t plus
max(baseHours(p) * (1 - min(2*u, 50)/100), 4) hours, the hours converted to
milliseconds without any truncation. Written from the claim, to be compared
with the source embedding above. -/
def claimDeadline (priority : String) (upvotes : ℕ) (t : ℚ) : ℚ :=
  t + max (claimBaseHours priority * (1 - min (2 * (upvotes : ℚ)) 50 / 100)) 4 * 3600000

/-- Embeds the Issue document of the mongoose schema (server.js lines 54-103,
superset fields of the seeding script's copy). Object ids are modelled as
strings; comments are (user, message, timestamp) triples; optional Date columns
are Option values. -/
structure Issue where
  title : String
  description : String
  category : String
  priority : String
  status : String
  address : String
  latitude : ℚ
  longitude : ℚ
  images : List String
  reporter : String
  department : Option String
  assignee : Option String
  comments : List (String × String × ℤ)
  upvotes : ℕ
  upvotedBy : List String
  targetResolutionTime : Option ℤ
  isOverdue : Bool
  estimatedResolution : Option ℤ
  resolvedAt : Option ℤ
  createdAt : ℤ
  updatedAt : ℤ
deriving DecidableEq

/-- Embeds the User document of the mongoose schema (the seeding script's
variant, lines 13-29 of the unnamed source file, a superset of the server.js
schema: it adds the authority role, a department and last-known coordinates). -/
structure User where
  name : String
  email : String
  phone : String
  password : String
  role : String
  address : Option String
  isActive : Bool
  department : Option String
  coords : Option (ℚ × ℚ)
  createdAt : ℤ
deriving DecidableEq

/-- Embeds checkIfOverdue (server.js lines 132-135): false for resolved or
rejected status, otherwise true exactly when the current time lies strictly
past the target resolution time. The implicit new Date() clock is passed
explicitly as now. -/
def checkIfOverdue (now : ℤ) (targetResolutionTime : ℤ) (status : String) : Bool :=
  if status = "resolved" ∨ status = "rejected" then false
  else decide (targetResolutionTime < now)

/-- Request body of PUT /api/issues/:id/status: target status, optional comment,
optional estimated resolution date. An absent field is the falsy branch of the
route's truthiness checks. -/
structure StatusUpdateRequest where
  status : String
  comment : Option String
  estimatedResolution : Option ℤ
deriving DecidableEq

/-- Embeds the mutation performed by PUT /api/issues/:id/status (server.js
lines 461-504) on a found issue: write the requested status and updatedAt
unconditionally, set resolvedAt = now when the target is resolved, store an
estimated resolution when supplied, append a comment when supplied. No other
field is touched; in particular the stored isOverdue flag is never written. -/
def applyStatusUpdate (now : ℤ) (actorId : String) (req : StatusUpdateRequest) (issue : Issue) :
    Issue :=
  let base := { issue with status := req.status, updatedAt := now }
  let base := if req.status = "resolved" then { base with resolvedAt := some now } else base
  let base :=
    match req.estimatedResolution with
    | some est => { base with estimatedResolution := some est }
    | none => base
  match req.comment with
  | some msg => { base with comments := base.comments ++ [(actorId, msg, now)] }
  | none => base

/-- Embeds the full route PUT /api/issues/:id/status including the requireAdmin
middleware (server.js lines 200-205): a non-admin actor is rejected before any
mutation; an admin actor's request always succeeds on an existing issue. -/
def updateIssueStatus (now : ℤ) (actorRole actorId : String) (req : StatusUpdateRequest)
    (issue : Issue) : Except String Issue :=
  if actorRole ≠ "admin" then .error "Admin access required"
  else .ok (applyStatusUpdate now actorId req issue)

/-- Concrete issue used as the base point of witnesses and counterexamples. -/
def baseIssue : Issue :=
  { title := "t", description := "d", category := "pothole", priority := "high",
    status := "pending", address := "a", latitude := 0, longitude := 0, images := [],
    reporter := "rep", department := some "Public Works", assignee := none, comments := [],
    upvotes := 0, upvotedBy := [], targetResolutionTime := some 0, isOverdue := false,
    estimatedResolution := none, resolvedAt := none, createdAt := 0, updatedAt := 0 }

/-- Embeds POST /api/issues/:id/upvote (server.js lines 539-570) on a found
issue: reply with a conflict error when the actor already upvoted (the route
returns 400 before mutating or saving anything), otherwise push the actor onto
upvotedBy, increment upvotes, recompute the target resolution time from the new
count and the overdue flag from that new deadline, and persist the result in a
single save. -/
def applyUpvote (now : ℤ) (userId : String) (issue : Issue) : Except String Issue :=
  if userId ∈ issue.upvotedBy then .error "You have already upvoted this issue"
  else
    let upvotedBy := issue.upvotedBy ++ [userId]
    let upvotes := issue.upvotes + 1
    let target := calculateTargetResolutionTime upvotes issue.priority issue.createdAt
    .ok { issue with
      upvotedBy := upvotedBy
      upvotes := upvotes
      targetResolutionTime := some target
      isOverdue := checkIfOverdue now target issue.status }

/-- Embeds DELETE /api/issues/:id/upvote (server.js lines 573-604): reply with
a conflict error when the actor has not upvoted (400 before any mutation),
otherwise drop every occurrence of the actor from upvotedBy (the filter by !==),
decrement upvotes with a floor of 0 (Math.max(0, upvotes - 1), which is
subtraction on ℕ), recompute the target resolution time and the overdue flag,
and persist in a single save. -/
def applyUnupvote (now : ℤ) (userId : String) (issue : Issue) : Except String Issue :=
  if userId ∉ issue.upvotedBy then .error "You have not upvoted this issue"
  else
    let upvotedBy := issue.upvotedBy.filter (fun s => s != userId)
    let upvotes := issue.upvotes - 1
    let target := calculateTargetResolutionTime upvotes issue.priority issue.createdAt
    .ok { issue with
      upvotedBy := upvotedBy
      upvotes := upvotes
      targetResolutionTime := some target
      isOverdue := checkIfOverdue now target issue.status }

/-- A request to the upvote or un-upvote route by a given actor. -/
inductive VoteOp where
  | up (userId : String)
  | down (userId : String)
deriving DecidableEq

/-- Applies one vote request to the stored issue: a conflict reply leaves the
stored issue untouched because the route returns before saving; the Bool
records whether the call succeeded. -/
def applyVoteOp (now : ℤ) (issue : Issue) : VoteOp → Issue × Bool
  | .up u =>
    match applyUpvote now u issue with
    | .ok j => (j, true)
    | .error _ => (issue, false)
  | .down u =>
    match applyUnupvote now u issue with
    | .ok j => (j, true)
    | .error _ => (issue, false)

/-- Runs a sequence of vote requests against an issue, returning the final
stored issue together with the number of successful upvotes and of successful
un-upvotes. -/
def runVoteOps (now : ℤ) (issue : Issue) : List VoteOp → Issue × ℕ × ℕ
  | [] => (issue, 0, 0)
  | op :: rest =>
    let step := applyVoteOp now issue op
    let r := runVoteOps now step.1 rest
    if step.2 then
      match op with
      | .up _ => (r.1, r.2.1 + 1, r.2.2)
      | .down _ => (r.1, r.2.1, r.2.2 + 1)
    else r

/-- The invariant of claim C6: the upvoter list is duplicate-free (it is a set)
and the stored upvote count equals its size. -/
def voteInvariant (issue : Issue) : Prop :=
  issue.upvotedBy.Nodup ∧ issue.upvotes = issue.upvotedBy.length

/-- Embeds the scan filter of POST /api/issues/update-overdue (server.js lines
609-612): the batch touches only issues whose status is neither resolved nor
rejected and which have a target resolution time. -/
def inOverdueScan (issue : Issue) : Bool :=
  !((issue.status == "resolved") || (issue.status == "rejected")) &&
    issue.targetResolutionTime.isSome

/-- Embeds the loop body of POST /api/issues/update-overdue (server.js lines
616-623) on one scanned issue: recompute the overdue flag with checkIfOverdue
and save only when it differs from the stored flag; the Bool records whether a
save happened. -/
def refreshIssue (now : ℤ) (issue : Issue) : Issue × Bool :=
  match issue.targetResolutionTime with
  | some target =>
    let flag := checkIfOverdue now target issue.status
    if issue.isOverdue ≠ flag then ({ issue with isOverdue := flag }, true) else (issue, false)
  | none => (issue, false)

/-- Embeds POST /api/issues/update-overdue (server.js lines 607-632) over the
whole issue store: scanned issues are refreshed in place, the rest are left
untouched, and the second component counts the issues actually persisted. -/
def refreshOverdueFlags (now : ℤ) : List Issue → List Issue × ℕ
  | [] => ([], 0)
  | issue :: rest =>
    let r := refreshOverdueFlags now rest
    if inOverdueScan issue then
      let s := refreshIssue now issue
      (s.1 :: r.1, (if s.2 then 1 else 0) + r.2)
    else (issue :: r.1, r.2)

/-- Request body of POST /api/auth/register: name, email, phone, password and
the (ignored) requested role, which defaults to citizen in the destructuring. -/
structure RegisterRequest where
  name : String
  email : String
  phone : String
  password : String
  role : String
deriving DecidableEq

/-- Embeds POST /api/auth/register (server.js lines 212-265): reject when a
user with the email already exists; otherwise build the user from the request
with the hashed password and the requested role, then overwrite the role with
admin exactly when the supplied name is wolf moni and with citizen in every
other case, and save. The bcrypt hash is abstracted as a function parameter;
fields absent from the route take the schema defaults. -/
def registerUser (hash : String → String) (now : ℤ) (existingEmails : List String)
    (req : RegisterRequest) : Except String User :=
  if req.email ∈ existingEmails then .error "User already exists with this email"
  else
    let user : User :=
      { name := req.name, email := req.email, phone := req.phone,
        password := hash req.password, role := req.role, address := none,
        isActive := true, department := none, coords := none, createdAt := now }
    let user :=
      if user.name = "wolf moni" then { user with role := "admin" }
      else { user with role := "citizen" }
    .ok user

/-- Embeds the mongo filter built by findNearestAuthority (unnamed seeding
source, lines 131-134): role authority, active, and — when a department string
is supplied (a falsy department adds no clause, modelled as none) — an exactly
matching department. -/
def authorityFilter (department : Option String) (u : User) : Bool :=
  (u.role == "authority") && u.isActive &&
    (match department with
     | some d => u.department == some d
     | none => true)

/-- Embeds one iteration of the findNearestAuthority loop (unnamed seeding
source, lines 137-142): a candidate without numeric coordinates is skipped;
otherwise its distance is compared strictly against the best so far (none plays
the role of the initial Infinity). The haversine metric is passed as the
abstract parameter dist; the selection logic does not depend on it. -/
def stepNearest (dist : ℚ → ℚ → ℚ → ℚ → ℚ) (lat lon : ℚ) (best : Option (User × ℚ))
    (u : User) : Option (User × ℚ) :=
  match u.coords with
  | none => best
  | some c =>
    let d := dist lat lon c.1 c.2
    match best with
    | none => some (u, d)
    | some b => if d < b.2 then some (u, d) else best

/-- Embeds findNearestAuthority (unnamed seeding source, lines 131-144): filter
the user store, run the nearest-so-far loop from an empty best, and return the
selected account if any. The store query is modelled as a list filter and the
haversine metric as the abstract dist parameter, so every property proved below
holds for the haversine instantiation in particular. -/
def findNearestAuthority (dist : ℚ → ℚ → ℚ → ℚ → ℚ) (department : Option String)
    (lat lon : ℚ) (users : List User) : Option User :=
  ((users.filter (authorityFilter department)).foldl (stepNearest dist lat lon) none).map
    Prod.fst

/-- The candidate pool named by claim C5: authority accounts that are active,
belong to the given department and have known coordinates. Written from the
claim, to be compared with the loop above. -/
def rankedPool (department : String) (users : List User) : List User :=
  users.filter (fun u =>
    (u.role == "authority") && u.isActive && (u.department == some department) &&
      u.coords.isSome)

/-- The nearest-so-far step on already-extracted (candidate, distance) pairs;
stepNearest coincides with it once a candidate's coordinates are resolved. -/
def step2 (best : Option (User × ℚ)) (p : User × ℚ) : Option (User × ℚ) :=
  match best with
  | none => some p
  | some b => if p.2 < b.2 then some p else best

/-- The (candidate, distance) pairs the loop actually ranks: users of the list
paired with their distance, users without coordinates skipped. -/
def candPairs (dist : ℚ → ℚ → ℚ → ℚ → ℚ) (lat lon : ℚ) (l : List User) :
    List (User × ℚ) :=
  l.filterMap (fun u => u.coords.map (fun c => (u, dist lat lon c.1 c.2)))

/-- Modelled from the spec: the duplicate-detection endpoint
GET /issues/duplicates, queried by the frontend submit handler (App.js lines
272-310), is not among the repository sources; only its caller is. Spec
section 4.4: the candidate pool is all existing issues of exactly the matching
category that are not in a terminal state. -/
def duplicateCandidates (category : String) (issues : List Issue) : List Issue :=
  issues.filter (fun i =>
    (i.category == category) && !((i.status == "resolved") || (i.status == "rejected")))

/-- Modelled from the spec: continuation of the missing duplicate-detection
endpoint. Spec section 4.4: for each candidate compute the distance (the
abstract dist parameter stands for the haversine metric of section 4.1) and
keep the candidates lying within the threshold, paired with their distance. -/
def duplicatesWithin (dist : ℚ → ℚ → ℚ → ℚ → ℚ) (category : String)
    (lat lon threshold : ℚ) (issues : List Issue) : List (Issue × ℚ) :=
  (duplicateCandidates category issues).filterMap (fun i =>
    let d := dist lat lon i.latitude i.longitude
    if d ≤ threshold then some (i, d) else none)

/-- Modelled from the spec: selection order of the missing duplicate-detection
endpoint. Spec section 4.4: minimum distance, ties broken by the most recently
created candidate. -/
def betterDuplicate (p q : Issue × ℚ) : Issue × ℚ :=
  if q.2 < p.2 then q
  else if q.2 = p.2 ∧ p.1.createdAt < q.1.createdAt then q
  else p

/-- Modelled from the spec: the missing duplicate-detection endpoint
findDuplicate. Spec section 4.4: if one or more candidates lie within the
threshold, return the single nearest one (minimum distance, ties to the most
recent) together with its distance; otherwise report no duplicate. -/
def findDuplicate (dist : ℚ → ℚ → ℚ → ℚ → ℚ) (category : String)
    (lat lon threshold : ℚ) (issues : List Issue) : Option (Issue × ℚ) :=
  match duplicatesWithin dist category lat lon threshold issues with
  | [] => none
  | p :: rest => some (rest.foldl betterDuplicate p)

/-- Concrete squared-Euclidean stand-in metric used by witnesses (the selection
theorems hold for every metric). -/
def c5Dist : ℚ → ℚ → ℚ → ℚ → ℚ := fun x y z w => (x - z) * (x - z) + (y - w) * (y - w)

/-- Concrete active Sanitation authority close to the origin, for witnesses. -/
def c5AuthA : User :=
  { name := "A", email := "a@d", phone := "1", password := "p", role := "authority",
    address := none, isActive := true, department := some "Sanitation",
    coords := some (0, 1), createdAt := 0 }

/-- Concrete active Sanitation authority farther from the origin, for
witnesses. -/
def c5AuthB : User :=
  { name := "B", email := "b@d", phone := "1", password := "p", role := "authority",
    address := none, isActive := true, department := some "Sanitation",
    coords := some (0, 5), createdAt := 0 }

lemma baseHoursFor_eq_claimBase (p : String) : baseHoursFor p = claimBaseHours p := by
  unfold baseHoursFor claimBaseHours
  split_ifs <;> simp_all

lemma baseHoursFor_nonneg (p : String) : 0 ≤ baseHoursFor p := by
  unfold baseHoursFor
  split_ifs <;> norm_num

lemma finalHoursFor_eq_claim (u : ℕ) (p : String) :
    finalHoursFor u p = max (claimBaseHours p * (1 - min (2 * (u : ℚ)) 50 / 100)) 4 := by
  unfold finalHoursFor
  rw [baseHoursFor_eq_claimBase, mul_comm ((u : ℚ)) 2]

lemma four_le_finalHoursFor (u : ℕ) (p : String) : (4 : ℚ) ≤ finalHoursFor u p := by
  simp only [finalHoursFor]
  exact le_max_right _ _

lemma finalHoursFor_antitone (p : String) {u v : ℕ} (h : u ≤ v) :
    finalHoursFor v p ≤ finalHoursFor u p := by
  simp only [finalHoursFor]
  apply max_le_max _ le_rfl
  apply mul_le_mul_of_nonneg_left _ (baseHoursFor_nonneg p)
  have hm : min ((u : ℚ) * 2) 50 ≤ min ((v : ℚ) * 2) 50 := by
    apply min_le_min _ le_rfl
    have hc : (u : ℚ) ≤ v := Nat.cast_le.mpr h
    nlinarith
  linarith

/-- Claim C1 as stated is false: at priority high with one upvote the claimed
deadline is creation + 23.52 hours (84672000 ms past a creation time of 0), but
the code's setHours truncates the fractional hour count and returns
creation + 23 hours (82800000 ms). -/
theorem C1_counterexample :
    calculateTargetResolutionTime 1 "high" 0 = 82800000 ∧
    claimDeadline "high" 1 0 = 84672000 ∧
    ((calculateTargetResolutionTime 1 "high" 0 : ℚ) ≠ claimDeadline "high" 1 0) := by
  refine ⟨?_, ?_, ?_⟩ <;>
    norm_num [calculateTargetResolutionTime, finalHoursFor, baseHoursFor,
      claimDeadline, claimBaseHours, msPerHour]

/-- Claim C1 amended: computeDeadline(p, u, t) returns t plus the integer
truncation of max(baseHours(p) * (1 - min(2*u, 50)/100), 4) hours, the
fractional part of the hour count being dropped by setHours; the three example
equalities of the claim, whose hour counts are whole numbers, hold exactly. -/
theorem C1_deadline_truncated (priority : String) (upvotes : ℕ) (t : ℤ) :
    calculateTargetResolutionTime upvotes priority t =
      t + ⌊max (claimBaseHours priority * (1 - min (2 * (upvotes : ℚ)) 50 / 100)) 4⌋ * msPerHour ∧
    calculateTargetResolutionTime 0 "high" t = t + 24 * msPerHour ∧
    calculateTargetResolutionTime 25 "medium" t = t + 36 * msPerHour ∧
    calculateTargetResolutionTime 100 "low" t = t + 84 * msPerHour := by
  have h0 : ⌊finalHoursFor 0 "high"⌋ = 24 := by
    norm_num [finalHoursFor, baseHoursFor]
  have h25 : ⌊finalHoursFor 25 "medium"⌋ = 36 := by
    norm_num [finalHoursFor, baseHoursFor, show ("medium" : String) ≠ "high" from by decide]
  have h100 : ⌊finalHoursFor 100 "low"⌋ = 84 := by
    norm_num [finalHoursFor, baseHoursFor, show ("low" : String) ≠ "high" from by decide,
      show ("low" : String) ≠ "medium" from by decide]
  refine ⟨?_, ?_, ?_, ?_⟩
  · unfold calculateTargetResolutionTime
    rw [finalHoursFor_eq_claim]
  · unfold calculateTargetResolutionTime
    rw [h0]
  · unfold calculateTargetResolutionTime
    rw [h25]
  · unfold calculateTargetResolutionTime
    rw [h100]

/-- Claim C7: for every priority and upvote count the deadline lies at least 4
hours past the creation time, and for a fixed priority the deadline is
monotonically non-increasing as the upvote count grows. -/
theorem C7_deadline_floor_and_antitone (priority : String) (u v : ℕ) (huv : u ≤ v) (t : ℤ) :
    t + 4 * msPerHour ≤ calculateTargetResolutionTime u priority t ∧
    calculateTargetResolutionTime v priority t ≤ calculateTargetResolutionTime u priority t := by
  constructor
  · have h4 : (4 : ℤ) ≤ ⌊finalHoursFor u priority⌋ := by
      rw [Int.le_floor]
      exact_mod_cast four_le_finalHoursFor u priority
    unfold calculateTargetResolutionTime
    have : (4 : ℤ) * msPerHour ≤ ⌊finalHoursFor u priority⌋ * msPerHour := by
      apply mul_le_mul_of_nonneg_right h4
      norm_num [msPerHour]
    omega
  · have hf : ⌊finalHoursFor v priority⌋ ≤ ⌊finalHoursFor u priority⌋ :=
      Int.floor_le_floor (finalHoursFor_antitone priority huv)
    unfold calculateTargetResolutionTime
    have : ⌊finalHoursFor v priority⌋ * msPerHour ≤ ⌊finalHoursFor u priority⌋ * msPerHour := by
      apply mul_le_mul_of_nonneg_right hf
      norm_num [msPerHour]
    omega

/-- Witness for C7 at priority high, upvote counts 0 ≤ 3, creation time 0. -/
theorem C7_witness :
    (0 : ℕ) ≤ 3 ∧
    (0 : ℤ) + 4 * msPerHour ≤ calculateTargetResolutionTime 0 "high" 0 ∧
    calculateTargetResolutionTime 3 "high" 0 ≤ calculateTargetResolutionTime 0 "high" 0 :=
  ⟨Nat.zero_le 3, (C7_deadline_floor_and_antitone "high" 0 3 (Nat.zero_le 3) 0).1,
    (C7_deadline_floor_and_antitone "high" 0 3 (Nat.zero_le 3) 0).2⟩

/-- Claim C2 is right about the intent but the route is missing the flag write:
transitioning an overdue in-progress issue to resolved at time 1000 does set
status and resolvedAt, yet the stored isOverdue flag remains true, because the
route's updateData never includes isOverdue (checkIfOverdue, which the codebase
uses everywhere else, would force it to false for a resolved status). -/
theorem C2_resolved_keeps_stale_overdue_flag :
    (applyStatusUpdate 1000 "adm" { status := "resolved", comment := none, estimatedResolution := none }
      { baseIssue with status := "in-progress", isOverdue := true }).status = "resolved" ∧
    (applyStatusUpdate 1000 "adm" { status := "resolved", comment := none, estimatedResolution := none }
      { baseIssue with status := "in-progress", isOverdue := true }).resolvedAt = some 1000 ∧
    (applyStatusUpdate 1000 "adm" { status := "resolved", comment := none, estimatedResolution := none }
      { baseIssue with status := "in-progress", isOverdue := true }).isOverdue = true ∧
    checkIfOverdue 1000 0 "resolved" = false := by
  refine ⟨rfl, rfl, rfl, rfl⟩

/-- Claim C3 as stated is false: the route enforces no transition table. An
admin request moving a resolved issue back to pending is accepted and mutates
the issue (the claim says it is rejected with a validation error and the issue
is left unchanged). -/
theorem C3_counterexample :
    updateIssueStatus 5 "admin" "adm" { status := "pending", comment := none, estimatedResolution := none }
      { baseIssue with status := "resolved", resolvedAt := some 3 } =
    .ok { baseIssue with status := "pending", resolvedAt := some 3, updatedAt := 5 } := by
  rfl

/-- Claim C3 amended: the status route validates only the actor, not the
transition. A non-admin request is rejected with an access error and no
mutation; an admin request always succeeds and writes the requested target
status, whatever the current status, including out of resolved and rejected. -/
theorem C3_no_transition_validation (now : ℤ) (role actorId : String)
    (req : StatusUpdateRequest) (issue : Issue) :
    (role = "admin" →
      updateIssueStatus now role actorId req issue = .ok (applyStatusUpdate now actorId req issue) ∧
      (applyStatusUpdate now actorId req issue).status = req.status) ∧
    (role ≠ "admin" → updateIssueStatus now role actorId req issue = .error "Admin access required") := by
  constructor
  · intro h
    constructor
    · simp [updateIssueStatus, h]
    · rcases req with ⟨st, c, e⟩
      unfold applyStatusUpdate
      dsimp only
      split_ifs <;> cases e <;> cases c <;> rfl
  · intro h
    simp [updateIssueStatus, h]

/-- Witness for C3's amended theorem: an admin request on the base issue
succeeds. -/
theorem C3_witness :
    updateIssueStatus 0 "admin" "adm"
      { status := "in-progress", comment := none, estimatedResolution := none } baseIssue =
    .ok (applyStatusUpdate 0 "adm"
      { status := "in-progress", comment := none, estimatedResolution := none } baseIssue) :=
  ((C3_no_transition_validation 0 "admin" "adm"
    { status := "in-progress", comment := none, estimatedResolution := none } baseIssue).1 rfl).1

lemma applyUpvote_ok_inv (now : ℤ) (u : String) {issue j : Issue}
    (hinv : voteInvariant issue) (hj : applyUpvote now u issue = .ok j) :
    voteInvariant j ∧ j.upvotes = issue.upvotes + 1 := by
  unfold applyUpvote at hj
  split_ifs at hj with h
  simp only [Except.ok.injEq] at hj
  subst hj
  refine ⟨⟨?_, ?_⟩, rfl⟩
  · rw [List.nodup_append]
    refine ⟨hinv.1, List.nodup_singleton u, ?_⟩
    intro x hx hxu
    rcases List.mem_singleton.mp hxu with rfl
    exact h hx
  · simp [hinv.2]

lemma applyUnupvote_ok_inv (now : ℤ) (u : String) {issue j : Issue}
    (hinv : voteInvariant issue) (hj : applyUnupvote now u issue = .ok j) :
    voteInvariant j ∧ j.upvotes + 1 = issue.upvotes := by
  unfold applyUnupvote at hj
  split_ifs at hj with h
  simp only [Except.ok.injEq] at hj
  subst hj
  have hmem : u ∈ issue.upvotedBy := h
  have he : issue.upvotedBy.filter (fun s => s != u) = issue.upvotedBy.erase u :=
    (hinv.1.erase_eq_filter u).symm
  have hlen := List.length_erase_add_one hmem
  have h2 := hinv.2
  refine ⟨⟨?_, ?_⟩, ?_⟩
  · show (issue.upvotedBy.filter (fun s => s != u)).Nodup
    rw [he]
    exact hinv.1.erase u
  · show issue.upvotes - 1 = (issue.upvotedBy.filter (fun s => s != u)).length
    rw [he]
    omega
  · show issue.upvotes - 1 + 1 = issue.upvotes
    have hpos : 0 < issue.upvotedBy.length := List.length_pos.mpr (List.ne_nil_of_mem hmem)
    omega

lemma runVoteOps_cons_up_ok {now : ℤ} {u : String} {issue j : Issue}
    (hc : applyUpvote now u issue = .ok j) (rest : List VoteOp) :
    runVoteOps now issue (.up u :: rest) =
      ((runVoteOps now j rest).1, (runVoteOps now j rest).2.1 + 1, (runVoteOps now j rest).2.2) := by
  simp [runVoteOps, applyVoteOp, hc]

lemma runVoteOps_cons_up_err {now : ℤ} {u : String} {issue : Issue} {e : String}
    (hc : applyUpvote now u issue = .error e) (rest : List VoteOp) :
    runVoteOps now issue (.up u :: rest) = runVoteOps now issue rest := by
  simp [runVoteOps, applyVoteOp, hc]

lemma runVoteOps_cons_down_ok {now : ℤ} {u : String} {issue j : Issue}
    (hc : applyUnupvote now u issue = .ok j) (rest : List VoteOp) :
    runVoteOps now issue (.down u :: rest) =
      ((runVoteOps now j rest).1, (runVoteOps now j rest).2.1, (runVoteOps now j rest).2.2 + 1) := by
  simp [runVoteOps, applyVoteOp, hc]

lemma runVoteOps_cons_down_err {now : ℤ} {u : String} {issue : Issue} {e : String}
    (hc : applyUnupvote now u issue = .error e) (rest : List VoteOp) :
    runVoteOps now issue (.down u :: rest) = runVoteOps now issue rest := by
  simp [runVoteOps, applyVoteOp, hc]

lemma runVoteOps_spec (now : ℤ) :
    ∀ (ops : List VoteOp) (issue : Issue), voteInvariant issue →
      voteInvariant (runVoteOps now issue ops).1 ∧
      (runVoteOps now issue ops).1.upvotes + (runVoteOps now issue ops).2.2 =
        issue.upvotes + (runVoteOps now issue ops).2.1 := by
  intro ops
  induction ops with
  | nil =>
    intro issue h
    exact ⟨h, rfl⟩
  | cons op rest ih =>
    intro issue h
    cases op with
    | up u =>
      cases hc : applyUpvote now u issue with
      | error e =>
        rw [runVoteOps_cons_up_err hc rest]
        simpa using ih issue h
      | ok j =>
        have hik := applyUpvote_ok_inv now u h hc
        rw [runVoteOps_cons_up_ok hc rest]
        have hr := ih j hik.1
        have hcount := hik.2
        refine ⟨hr.1, ?_⟩
        have := hr.2
        dsimp only
        omega
    | down u =>
      cases hc : applyUnupvote now u issue with
      | error e =>
        rw [runVoteOps_cons_down_err hc rest]
        simpa using ih issue h
      | ok j =>
        have hik := applyUnupvote_ok_inv now u h hc
        rw [runVoteOps_cons_down_ok hc rest]
        have hr := ih j hik.1
        have hcount := hik.2
        refine ⟨hr.1, ?_⟩
        have := hr.2
        dsimp only
        omega

/-- Claim C6: on any issue whose upvote count equals the size of its
duplicate-free upvoter set, every successful upvote and every successful
un-upvote preserves that equality, and over any sequence of vote requests the
final count equals the initial count plus successful upvotes minus successful
un-upvotes. -/
theorem C6_upvote_count_invariant (now : ℤ) (issue : Issue) (h : voteInvariant issue) :
    (∀ u j, applyUpvote now u issue = .ok j → voteInvariant j) ∧
    (∀ u j, applyUnupvote now u issue = .ok j → voteInvariant j) ∧
    ∀ ops : List VoteOp,
      voteInvariant (runVoteOps now issue ops).1 ∧
      ((runVoteOps now issue ops).1.upvotes : ℤ) =
        (issue.upvotes : ℤ) + (runVoteOps now issue ops).2.1 - (runVoteOps now issue ops).2.2 := by
  refine ⟨?_, ?_, ?_⟩
  · intro u j hj
    exact (applyUpvote_ok_inv now u h hj).1
  · intro u j hj
    exact (applyUnupvote_ok_inv now u h hj).1
  · intro ops
    have hs := runVoteOps_spec now ops issue h
    exact ⟨hs.1, by omega⟩

/-- Witness for C6: the base issue (empty upvoter set, count 0) satisfies the
invariant, and it is preserved across the sequence up a, up b, down a. -/
theorem C6_witness :
    voteInvariant baseIssue ∧
    voteInvariant (runVoteOps 0 baseIssue [VoteOp.up "a", VoteOp.up "b", VoteOp.down "a"]).1 :=
  ⟨⟨List.nodup_nil, rfl⟩,
    ((C6_upvote_count_invariant 0 baseIssue ⟨List.nodup_nil, rfl⟩).2.2
      [VoteOp.up "a", VoteOp.up "b", VoteOp.down "a"]).1⟩

/-- Claim C9: the upvote route fails with the already-upvoted conflict exactly
when the actor is in the upvoter set, the un-upvote route fails with the
not-upvoted conflict exactly when the actor is absent (either conflict reply is
sent before any mutation, so the stored issue is unchanged), and each success
recomputes the deadline from the updated count and the overdue flag from that
deadline before the single save. -/
theorem C9_vote_conflicts (now : ℤ) (userId : String) (issue : Issue) :
    (applyUpvote now userId issue = .error "You have already upvoted this issue" ↔
      userId ∈ issue.upvotedBy) ∧
    (applyUnupvote now userId issue = .error "You have not upvoted this issue" ↔
      userId ∉ issue.upvotedBy) ∧
    (∀ j, applyUpvote now userId issue = .ok j →
      j.upvotes = issue.upvotes + 1 ∧
      j.targetResolutionTime =
        some (calculateTargetResolutionTime j.upvotes issue.priority issue.createdAt) ∧
      j.isOverdue =
        checkIfOverdue now (calculateTargetResolutionTime j.upvotes issue.priority issue.createdAt)
          j.status) ∧
    (∀ j, applyUnupvote now userId issue = .ok j →
      j.upvotes = issue.upvotes - 1 ∧
      j.targetResolutionTime =
        some (calculateTargetResolutionTime j.upvotes issue.priority issue.createdAt) ∧
      j.isOverdue =
        checkIfOverdue now (calculateTargetResolutionTime j.upvotes issue.priority issue.createdAt)
          j.status) := by
  refine ⟨?_, ?_, ?_, ?_⟩
  · unfold applyUpvote
    split_ifs with h <;> simp [h]
  · unfold applyUnupvote
    split_ifs with h <;> simp [h]
  · intro j hj
    unfold applyUpvote at hj
    split_ifs at hj with h
    simp only [Except.ok.injEq] at hj
    subst hj
    exact ⟨rfl, rfl, rfl⟩
  · intro j hj
    unfold applyUnupvote at hj
    split_ifs at hj with h
    simp only [Except.ok.injEq] at hj
    subst hj
    exact ⟨rfl, rfl, rfl⟩

/-- Witness for C9: on an issue already upvoted by a, a second upvote by a is
rejected with the already-upvoted conflict. -/
theorem C9_witness :
    ("a" ∈ ({ baseIssue with upvotedBy := ["a"], upvotes := 1 } : Issue).upvotedBy) ∧
    applyUpvote 0 "a" { baseIssue with upvotedBy := ["a"], upvotes := 1 } =
      .error "You have already upvoted this issue" :=
  ⟨by decide,
    (C9_vote_conflicts 0 "a" { baseIssue with upvotedBy := ["a"], upvotes := 1 }).1.mpr (by decide)⟩

lemma refreshIssue_fst_fields (now : ℤ) (issue : Issue) :
    (refreshIssue now issue).1.status = issue.status ∧
    (refreshIssue now issue).1.targetResolutionTime = issue.targetResolutionTime := by
  unfold refreshIssue
  cases h : issue.targetResolutionTime with
  | none => exact ⟨rfl, h⟩
  | some t =>
    dsimp only
    split_ifs <;> first
    | exact ⟨rfl, rfl⟩
    | exact ⟨rfl, h⟩

lemma refreshIssue_stable (now : ℤ) (issue : Issue) :
    refreshIssue now (refreshIssue now issue).1 = ((refreshIssue now issue).1, false) := by
  cases h : issue.targetResolutionTime with
  | none =>
    simp [refreshIssue, h]
  | some t =>
    by_cases hf : issue.isOverdue ≠ checkIfOverdue now t issue.status
    · have h1 : refreshIssue now issue =
          ({ issue with isOverdue := checkIfOverdue now t issue.status }, true) := by
        simp [refreshIssue, h, hf]
      rw [h1]
      simp [refreshIssue, h]
    · have h1 : refreshIssue now issue = (issue, false) := by
        simp [refreshIssue, h, hf]
      rw [h1]
      simp [refreshIssue, h, hf]

lemma inOverdueScan_refreshIssue (now : ℤ) (issue : Issue) :
    inOverdueScan (refreshIssue now issue).1 = inOverdueScan issue := by
  have hp := refreshIssue_fst_fields now issue
  unfold inOverdueScan
  rw [hp.1, hp.2]

/-- Claim C8: the batch overdue refresh is idempotent. Whatever the issue
store, running the refresh a second time at the same clock value persists zero
issues: the first run leaves every scanned issue's stored flag equal to its
recomputed flag, and the scan set itself is unchanged. -/
theorem C8_refresh_idempotent (now : ℤ) (issues : List Issue) :
    (refreshOverdueFlags now (refreshOverdueFlags now issues).1).2 = 0 := by
  induction issues with
  | nil => rfl
  | cons issue rest ih =>
    cases hscan : inOverdueScan issue with
    | false =>
      have h1 : refreshOverdueFlags now (issue :: rest) =
          (issue :: (refreshOverdueFlags now rest).1, (refreshOverdueFlags now rest).2) := by
        simp [refreshOverdueFlags, hscan]
      rw [h1]
      have h2 : refreshOverdueFlags now (issue :: (refreshOverdueFlags now rest).1) =
          (issue :: (refreshOverdueFlags now (refreshOverdueFlags now rest).1).1,
            (refreshOverdueFlags now (refreshOverdueFlags now rest).1).2) := by
        simp [refreshOverdueFlags, hscan]
      rw [h2]
      exact ih
    | true =>
      have h1 : refreshOverdueFlags now (issue :: rest) =
          ((refreshIssue now issue).1 :: (refreshOverdueFlags now rest).1,
            (if (refreshIssue now issue).2 then 1 else 0) + (refreshOverdueFlags now rest).2) := by
        simp [refreshOverdueFlags, hscan]
      rw [h1]
      have hscan2 : inOverdueScan (refreshIssue now issue).1 = true := by
        rw [inOverdueScan_refreshIssue]
        exact hscan
      have h2 : refreshOverdueFlags now
            ((refreshIssue now issue).1 :: (refreshOverdueFlags now rest).1) =
          ((refreshIssue now (refreshIssue now issue).1).1 ::
              (refreshOverdueFlags now (refreshOverdueFlags now rest).1).1,
            (if (refreshIssue now (refreshIssue now issue).1).2 then 1 else 0) +
              (refreshOverdueFlags now (refreshOverdueFlags now rest).1).2) := by
        simp [refreshOverdueFlags, hscan2]
      rw [h2, refreshIssue_stable]
      simpa using ih

/-- Claim C10: registration stores the role admin exactly when the supplied
name is wolf moni and citizen in every other case, and the stored outcome is
unchanged when the requested role field is replaced by anything else. -/
theorem C10_registration_role (hash : String → String) (now : ℤ) (existing : List String)
    (req : RegisterRequest) :
    (∀ u, registerUser hash now existing req = .ok u →
      (u.role = "admin" ↔ req.name = "wolf moni") ∧
      u.role = (if req.name = "wolf moni" then "admin" else "citizen")) ∧
    ∀ r, registerUser hash now existing { req with role := r } =
      registerUser hash now existing req := by
  constructor
  · intro u hu
    unfold registerUser at hu
    split_ifs at hu with he
    simp only [Except.ok.injEq] at hu
    subst hu
    by_cases hn : req.name = "wolf moni" <;> simp [hn]
  · intro r
    rfl

/-- Witness for C10: registering the name wolf moni with a requested citizen
role stores the admin role. -/
theorem C10_witness :
    registerUser id 0 []
        { name := "wolf moni", email := "e", phone := "p", password := "pw", role := "citizen" } =
      .ok { name := "wolf moni", email := "e", phone := "p", password := "pw", role := "admin",
            address := none, isActive := true, department := none, coords := none, createdAt := 0 } ∧
    ({ name := "wolf moni", email := "e", phone := "p", password := "pw", role := "admin",
       address := none, isActive := true, department := none, coords := none, createdAt := 0 } : User).role =
      "admin" :=
  ⟨rfl, ((C10_registration_role id 0 []
      { name := "wolf moni", email := "e", phone := "p", password := "pw", role := "citizen" }).1
      { name := "wolf moni", email := "e", phone := "p", password := "pw", role := "admin",
        address := none, isActive := true, department := none, coords := none, createdAt := 0 }
      rfl).1.mpr rfl⟩

lemma stepNearest_coords_none (dist : ℚ → ℚ → ℚ → ℚ → ℚ) (lat lon : ℚ)
    (b : Option (User × ℚ)) (u : User) (hc : u.coords = none) :
    stepNearest dist lat lon b u = b := by
  simp [stepNearest, hc]

lemma stepNearest_coords_some (dist : ℚ → ℚ → ℚ → ℚ → ℚ) (lat lon : ℚ)
    (b : Option (User × ℚ)) (u : User) (c : ℚ × ℚ) (hc : u.coords = some c) :
    stepNearest dist lat lon b u = step2 b (u, dist lat lon c.1 c.2) := by
  cases b <;> simp [stepNearest, step2, hc]

lemma foldl_stepNearest_eq_step2 (dist : ℚ → ℚ → ℚ → ℚ → ℚ) (lat lon : ℚ) :
    ∀ (l : List User) (b : Option (User × ℚ)),
      l.foldl (stepNearest dist lat lon) b = (candPairs dist lat lon l).foldl step2 b := by
  intro l
  induction l with
  | nil => intro b; rfl
  | cons u l ih =>
    intro b
    cases hc : u.coords with
    | none =>
      rw [List.foldl_cons, stepNearest_coords_none dist lat lon b u hc]
      have hcp : candPairs dist lat lon (u :: l) = candPairs dist lat lon l := by
        simp [candPairs, List.filterMap_cons, hc]
      rw [hcp]
      exact ih b
    | some c =>
      rw [List.foldl_cons, stepNearest_coords_some dist lat lon b u c hc]
      have hcp : candPairs dist lat lon (u :: l) =
          (u, dist lat lon c.1 c.2) :: candPairs dist lat lon l := by
        simp [candPairs, List.filterMap_cons, hc]
      rw [hcp, List.foldl_cons]
      exact ih _

lemma step2_ne_none (b : Option (User × ℚ)) (p : User × ℚ) : step2 b p ≠ none := by
  cases b with
  | none => simp [step2]
  | some q =>
    by_cases hlt : p.2 < q.2 <;> simp [step2, hlt]

lemma step2_spec (b : Option (User × ℚ)) (r : User × ℚ) :
    ∃ z, step2 b r = some z ∧ (z = r ∨ b = some z) ∧ z.2 ≤ r.2 ∧
      ∀ q, b = some q → z.2 ≤ q.2 := by
  cases b with
  | none =>
    refine ⟨r, rfl, Or.inl rfl, le_rfl, ?_⟩
    intro q hq
    exact absurd hq (by simp)
  | some q0 =>
    by_cases hlt : r.2 < q0.2
    · refine ⟨r, by simp [step2, hlt], Or.inl rfl, le_rfl, ?_⟩
      intro q hq
      have hq0 : q0 = q := Option.some.inj hq
      rw [← hq0]
      exact le_of_lt hlt
    · refine ⟨q0, by simp [step2, hlt], Or.inr rfl, not_lt.mp hlt, ?_⟩
      intro q hq
      have hq0 : q0 = q := Option.some.inj hq
      rw [← hq0]

lemma foldl_step2_none : ∀ (ps : List (User × ℚ)) (b : Option (User × ℚ)),
    ps.foldl step2 b = none → b = none ∧ ps = [] := by
  intro ps
  induction ps with
  | nil =>
    intro b h
    exact ⟨h, rfl⟩
  | cons p ps ih =>
    intro b h
    rw [List.foldl_cons] at h
    rcases ih (step2 b p) h with ⟨h1, _⟩
    exact absurd h1 (step2_ne_none b p)

lemma foldl_step2_spec : ∀ (ps : List (User × ℚ)) (b : Option (User × ℚ)) (p : User × ℚ),
    ps.foldl step2 b = some p →
    (b = some p ∨ p ∈ ps) ∧ (∀ q, b = some q → p.2 ≤ q.2) ∧ ∀ q ∈ ps, p.2 ≤ q.2 := by
  intro ps
  induction ps with
  | nil =>
    intro b p h
    rw [List.foldl_nil] at h
    refine ⟨Or.inl h, ?_, ?_⟩
    · intro q hq
      rw [h] at hq
      have hpq : p = q := Option.some.inj hq
      rw [hpq]
    · intro q hq
      exact absurd hq (List.not_mem_nil q)
  | cons r ps ih =>
    intro b p h
    rw [List.foldl_cons] at h
    rcases ih (step2 b r) p h with ⟨hmem, hble, hpsle⟩
    obtain ⟨z, hz, hzmem, hzr, hzb⟩ := step2_spec b r
    have hpz : p.2 ≤ z.2 := hble z hz
    refine ⟨?_, ?_, ?_⟩
    · rcases hmem with hb' | hps
      · rw [hz] at hb'
        have hzp : z = p := Option.some.inj hb'
        rcases hzmem with hzr' | hbz
        · refine Or.inr ?_
          rw [← hzp, hzr']
          exact List.mem_cons_self r ps
        · refine Or.inl ?_
          rw [← hzp]
          exact hbz
      · exact Or.inr (List.mem_cons_of_mem r hps)
    · intro q hq
      exact le_trans hpz (hzb q hq)
    · intro q hq
      rcases List.mem_cons.mp hq with rfl | hqs
      · exact le_trans hpz hzr
      · exact hpsle q hqs

lemma mem_candPairs_iff (dist : ℚ → ℚ → ℚ → ℚ → ℚ) (lat lon : ℚ) (l : List User)
    (p : User × ℚ) :
    p ∈ candPairs dist lat lon l ↔
      p.1 ∈ l ∧ ∃ c : ℚ × ℚ, p.1.coords = some c ∧ p.2 = dist lat lon c.1 c.2 := by
  unfold candPairs
  rw [List.mem_filterMap]
  constructor
  · rintro ⟨u, hu, hmap⟩
    cases hc : u.coords with
    | none =>
      rw [hc] at hmap
      simp at hmap
    | some c =>
      rw [hc] at hmap
      simp only [Option.map_some', Option.some.injEq] at hmap
      subst hmap
      exact ⟨hu, c, hc, rfl⟩
  · rintro ⟨hmem, c, hc, hd⟩
    refine ⟨p.1, hmem, ?_⟩
    rw [hc]
    simp only [Option.map_some', Option.some.injEq]
    rw [← hd]

lemma mem_rankedPool (d : String) (users : List User) (u : User) :
    u ∈ rankedPool d users ↔
      u ∈ users.filter (authorityFilter (some d)) ∧ u.coords.isSome = true := by
  unfold rankedPool authorityFilter
  simp [List.mem_filter, and_assoc]

/-- Claim C5: the nearest-authority lookup for a department selects a candidate
of minimum distance among exactly the active authority accounts of that
department that have known coordinates, and returns unassigned (none, no
error) exactly when that pool is empty — so a nonempty pool always yields a
candidate. The metric is universally quantified, so the statement holds for
the haversine metric in particular. -/
theorem C5_nearest_authority (dist : ℚ → ℚ → ℚ → ℚ → ℚ) (d : String) (lat lon : ℚ)
    (users : List User) :
    (findNearestAuthority dist (some d) lat lon users = none ↔ rankedPool d users = []) ∧
    ∀ u, findNearestAuthority dist (some d) lat lon users = some u →
      u ∈ rankedPool d users ∧
      ∀ v ∈ rankedPool d users, ∀ cu cv : ℚ × ℚ, u.coords = some cu → v.coords = some cv →
        dist lat lon cu.1 cu.2 ≤ dist lat lon cv.1 cv.2 := by
  have hfold :=
    foldl_stepNearest_eq_step2 dist lat lon (users.filter (authorityFilter (some d))) none
  constructor
  · constructor
    · intro hnone
      unfold findNearestAuthority at hnone
      rw [hfold] at hnone
      cases hres :
          (candPairs dist lat lon (users.filter (authorityFilter (some d)))).foldl step2 none with
      | some p =>
        rw [hres] at hnone
        exact absurd hnone (by simp)
      | none =>
        have hcp := (foldl_step2_none _ none hres).2
        rw [List.eq_nil_iff_forall_not_mem]
        intro u hu
        rw [mem_rankedPool] at hu
        obtain ⟨c, hc⟩ := Option.isSome_iff_exists.mp hu.2
        have hin : (u, dist lat lon c.1 c.2) ∈
            candPairs dist lat lon (users.filter (authorityFilter (some d))) := by
          rw [mem_candPairs_iff]
          exact ⟨hu.1, c, hc, rfl⟩
        rw [hcp] at hin
        exact absurd hin (List.not_mem_nil _)
    · intro hpool
      unfold findNearestAuthority
      rw [hfold]
      have hcp : candPairs dist lat lon (users.filter (authorityFilter (some d))) = [] := by
        rw [List.eq_nil_iff_forall_not_mem]
        intro p hp
        rw [mem_candPairs_iff] at hp
        rcases hp with ⟨hmem, c, hc, _⟩
        have hpool' : p.1 ∈ rankedPool d users := by
          rw [mem_rankedPool]
          exact ⟨hmem, by rw [hc]; rfl⟩
        rw [hpool] at hpool'
        exact absurd hpool' (List.not_mem_nil _)
      rw [hcp]
      rfl
  · intro u hu
    unfold findNearestAuthority at hu
    rw [hfold] at hu
    cases hres :
        (candPairs dist lat lon (users.filter (authorityFilter (some d)))).foldl step2 none with
    | none =>
      rw [hres] at hu
      simp at hu
    | some p =>
      rw [hres] at hu
      simp only [Option.map_some', Option.some.injEq] at hu
      obtain ⟨hmem, _, hmin⟩ := foldl_step2_spec _ none p hres
      have hp_in : p ∈ candPairs dist lat lon (users.filter (authorityFilter (some d))) := by
        rcases hmem with hb | hin
        · exact absurd hb (by simp)
        · exact hin
      rw [mem_candPairs_iff] at hp_in
      rcases hp_in with ⟨hpf, c, hc, hd⟩
      constructor
      · rw [← hu, mem_rankedPool]
        exact ⟨hpf, by rw [hc]; rfl⟩
      · intro v hv cu cv hcu hcv
        have hcueq : c = cu := by
          rw [hu] at hc
          rw [hc] at hcu
          exact Option.some.inj hcu
        have hvmem : (v, dist lat lon cv.1 cv.2) ∈
            candPairs dist lat lon (users.filter (authorityFilter (some d))) := by
          rw [mem_candPairs_iff]
          exact ⟨((mem_rankedPool d users v).mp hv).1, cv, hcv, rfl⟩
        have hle := hmin _ hvmem
        rw [hd, hcueq] at hle
        exact hle

/-- Witness for C5: between two active Sanitation authorities the closer one is
selected, and it belongs to the ranked pool. -/
theorem C5_witness :
    findNearestAuthority c5Dist (some "Sanitation") 0 0 [c5AuthA, c5AuthB] = some c5AuthA ∧
    c5AuthA ∈ rankedPool "Sanitation" [c5AuthA, c5AuthB] :=
  have h : findNearestAuthority c5Dist (some "Sanitation") 0 0 [c5AuthA, c5AuthB] =
      some c5AuthA := by
    norm_num [findNearestAuthority, authorityFilter, stepNearest, step2, c5Dist, c5AuthA,
      c5AuthB, List.filter, List.foldl]
  ⟨h, ((C5_nearest_authority c5Dist "Sanitation" 0 0 [c5AuthA, c5AuthB]).2 c5AuthA h).1⟩

lemma betterDuplicate_spec (p r : Issue × ℚ) :
    (betterDuplicate p r = p ∨ betterDuplicate p r = r) ∧
    (betterDuplicate p r).2 ≤ p.2 ∧ (betterDuplicate p r).2 ≤ r.2 ∧
    (p.2 = (betterDuplicate p r).2 → p.1.createdAt ≤ (betterDuplicate p r).1.createdAt) ∧
    (r.2 = (betterDuplicate p r).2 → r.1.createdAt ≤ (betterDuplicate p r).1.createdAt) := by
  unfold betterDuplicate
  by_cases h1 : r.2 < p.2
  · rw [if_pos h1]
    refine ⟨Or.inr rfl, le_of_lt h1, le_rfl, ?_, fun _ => le_rfl⟩
    intro hp
    exact absurd hp.symm (ne_of_lt h1)
  · rw [if_neg h1]
    by_cases h2 : r.2 = p.2 ∧ p.1.createdAt < r.1.createdAt
    · rw [if_pos h2]
      refine ⟨Or.inr rfl, le_of_eq h2.1, le_rfl, fun _ => le_of_lt h2.2, fun _ => le_rfl⟩
    · rw [if_neg h2]
      have hpr : p.2 ≤ r.2 := not_lt.mp h1
      refine ⟨Or.inl rfl, le_rfl, hpr, fun _ => le_rfl, ?_⟩
      intro hr
      have hnot : ¬ p.1.createdAt < r.1.createdAt := fun hlt => h2 ⟨hr, hlt⟩
      exact not_lt.mp hnot

lemma foldl_betterDuplicate_spec : ∀ (ps : List (Issue × ℚ)) (p : Issue × ℚ),
    (ps.foldl betterDuplicate p ∈ p :: ps) ∧
    (ps.foldl betterDuplicate p).2 ≤ p.2 ∧
    (∀ q ∈ ps, (ps.foldl betterDuplicate p).2 ≤ q.2) ∧
    ∀ q ∈ p :: ps, q.2 = (ps.foldl betterDuplicate p).2 →
      q.1.createdAt ≤ (ps.foldl betterDuplicate p).1.createdAt := by
  intro ps
  induction ps with
  | nil =>
    intro p
    refine ⟨List.mem_cons_self p [], le_rfl, ?_, ?_⟩
    · intro q hq
      exact absurd hq (List.not_mem_nil q)
    · intro q hq hq2
      rcases List.mem_cons.mp hq with rfl | hn
      · exact le_rfl
      · exact absurd hn (List.not_mem_nil q)
  | cons r ps ih =>
    intro p
    rw [List.foldl_cons]
    obtain ⟨hacc_mem, hacc_p, hacc_r, hacc_tp, hacc_tr⟩ := betterDuplicate_spec p r
    obtain ⟨hmem, hle, hlist, htie⟩ := ih (betterDuplicate p r)
    refine ⟨?_, ?_, ?_, ?_⟩
    · rcases List.mem_cons.mp hmem with he | hin
      · rcases hacc_mem with hap | har
        · rw [he, hap]
          exact List.mem_cons_self p _
        · rw [he, har]
          exact List.mem_cons_of_mem p (List.mem_cons_self r ps)
      · exact List.mem_cons_of_mem p (List.mem_cons_of_mem r hin)
    · exact le_trans hle hacc_p
    · intro q hq
      rcases List.mem_cons.mp hq with rfl | hqs
      · exact le_trans hle hacc_r
      · exact hlist q hqs
    · intro q hq hq2
      rcases List.mem_cons.mp hq with rfl | hq'
      · have h1 := hle
        have h2 := hacc_p
        have hpa : q.2 = (betterDuplicate q r).2 := by linarith
        have har2 : (betterDuplicate q r).2 = (ps.foldl betterDuplicate (betterDuplicate q r)).2 := by
          linarith
        exact le_trans (hacc_tp hpa)
          (htie (betterDuplicate q r) (List.mem_cons_self _ ps) har2)
      rcases List.mem_cons.mp hq' with rfl | hq''
      · have h1 := hle
        have h2 := hacc_r
        have hra : q.2 = (betterDuplicate p q).2 := by linarith
        have har2 : (betterDuplicate p q).2 = (ps.foldl betterDuplicate (betterDuplicate p q)).2 := by
          linarith
        exact le_trans (hacc_tr hra)
          (htie (betterDuplicate p q) (List.mem_cons_self _ ps) har2)
      · exact htie q (List.mem_cons_of_mem _ hq'') hq2

lemma mem_duplicateCandidates (category : String) (issues : List Issue) (i : Issue) :
    i ∈ duplicateCandidates category issues ↔
      i ∈ issues ∧ i.category = category ∧ i.status ≠ "resolved" ∧ i.status ≠ "rejected" := by
  unfold duplicateCandidates
  simp [List.mem_filter, and_assoc, not_or]

lemma mem_duplicatesWithin_iff (dist : ℚ → ℚ → ℚ → ℚ → ℚ) (category : String)
    (lat lon threshold : ℚ) (issues : List Issue) (p : Issue × ℚ) :
    p ∈ duplicatesWithin dist category lat lon threshold issues ↔
      p.1 ∈ duplicateCandidates category issues ∧
      p.2 = dist lat lon p.1.latitude p.1.longitude ∧ p.2 ≤ threshold := by
  unfold duplicatesWithin
  rw [List.mem_filterMap]
  constructor
  · rintro ⟨i, hi, hmap⟩
    dsimp only at hmap
    by_cases hd : dist lat lon i.latitude i.longitude ≤ threshold
    · rw [if_pos hd] at hmap
      have hip := Option.some.inj hmap
      subst hip
      exact ⟨hi, rfl, hd⟩
    · rw [if_neg hd] at hmap
      exact absurd hmap (by simp)
  · rintro ⟨hmem, hd, hth⟩
    refine ⟨p.1, hmem, ?_⟩
    dsimp only
    rw [← hd, if_pos hth]

/-- Claim C4 (spec-modelled duplicate detection): any returned duplicate is an
existing non-terminal issue of exactly the requested category, carries its own
distance, lies within the threshold, and is nearest among all candidates with
ties broken toward the most recent creation; no duplicate is returned exactly
when no candidate lies within the threshold; a cross-category issue is never
returned at any distance. The metric is universally quantified, so the
statement holds for the haversine metric in particular. -/
theorem C4_duplicate_detection (dist : ℚ → ℚ → ℚ → ℚ → ℚ) (category : String)
    (lat lon threshold : ℚ) (issues : List Issue) :
    (∀ i dd, findDuplicate dist category lat lon threshold issues = some (i, dd) →
      i ∈ issues ∧ i.category = category ∧ i.status ≠ "resolved" ∧ i.status ≠ "rejected" ∧
      dd = dist lat lon i.latitude i.longitude ∧ dd ≤ threshold ∧
      (∀ j ∈ duplicateCandidates category issues, dd ≤ dist lat lon j.latitude j.longitude) ∧
      ∀ j ∈ duplicateCandidates category issues,
        dist lat lon j.latitude j.longitude ≤ threshold →
        dist lat lon j.latitude j.longitude = dd → j.createdAt ≤ i.createdAt) ∧
    (findDuplicate dist category lat lon threshold issues = none ↔
      ∀ j ∈ duplicateCandidates category issues,
        ¬ dist lat lon j.latitude j.longitude ≤ threshold) ∧
    ∀ i dd, i.category ≠ category →
      findDuplicate dist category lat lon threshold issues ≠ some (i, dd) := by
  have hmain : ∀ i dd, findDuplicate dist category lat lon threshold issues = some (i, dd) →
      i ∈ issues ∧ i.category = category ∧ i.status ≠ "resolved" ∧ i.status ≠ "rejected" ∧
      dd = dist lat lon i.latitude i.longitude ∧ dd ≤ threshold ∧
      (∀ j ∈ duplicateCandidates category issues, dd ≤ dist lat lon j.latitude j.longitude) ∧
      ∀ j ∈ duplicateCandidates category issues,
        dist lat lon j.latitude j.longitude ≤ threshold →
        dist lat lon j.latitude j.longitude = dd → j.createdAt ≤ i.createdAt := by
    intro i dd h
    unfold findDuplicate at h
    cases hW : duplicatesWithin dist category lat lon threshold issues with
    | nil =>
      rw [hW] at h
      exact absurd h (by simp)
    | cons p rest =>
      rw [hW] at h
      have hres : rest.foldl betterDuplicate p = (i, dd) := Option.some.inj h
      obtain ⟨hmem, hle, hlist, htie⟩ := foldl_betterDuplicate_spec rest p
      rw [hres] at hmem hle hlist htie
      have hmemW : ((i, dd) : Issue × ℚ) ∈
          duplicatesWithin dist category lat lon threshold issues := by
        rw [hW]
        exact hmem
      rw [mem_duplicatesWithin_iff] at hmemW
      obtain ⟨hcand, hdist, hth⟩ := hmemW
      have hc := (mem_duplicateCandidates category issues i).mp hcand
      refine ⟨hc.1, hc.2.1, hc.2.2.1, hc.2.2.2, hdist, hth, ?_, ?_⟩
      · intro j hj
        by_cases hjth : dist lat lon j.latitude j.longitude ≤ threshold
        · have hjW : ((j, dist lat lon j.latitude j.longitude) : Issue × ℚ) ∈ p :: rest := by
            rw [← hW, mem_duplicatesWithin_iff]
            exact ⟨hj, rfl, hjth⟩
          rcases List.mem_cons.mp hjW with he | hin
          · have hle' := hle
            rw [← he] at hle'
            simpa using hle'
          · simpa using hlist _ hin
        · exact le_trans hth (le_of_lt (not_le.mp hjth))
      · intro j hj hjth hjeq
        have hjW : ((j, dist lat lon j.latitude j.longitude) : Issue × ℚ) ∈ p :: rest := by
          rw [← hW, mem_duplicatesWithin_iff]
          exact ⟨hj, rfl, hjth⟩
        have hjt := htie _ hjW (by simpa using hjeq)
        simpa using hjt
  have hnone : findDuplicate dist category lat lon threshold issues = none ↔
      ∀ j ∈ duplicateCandidates category issues,
        ¬ dist lat lon j.latitude j.longitude ≤ threshold := by
    constructor
    · intro h j hj hjth
      cases hW : duplicatesWithin dist category lat lon threshold issues with
      | nil =>
        have hjW : ((j, dist lat lon j.latitude j.longitude) : Issue × ℚ) ∈
            duplicatesWithin dist category lat lon threshold issues := by
          rw [mem_duplicatesWithin_iff]
          exact ⟨hj, rfl, hjth⟩
        rw [hW] at hjW
        exact absurd hjW (List.not_mem_nil _)
      | cons p rest =>
        unfold findDuplicate at h
        rw [hW] at h
        exact absurd h (by simp)
    · intro hall
      have hW : duplicatesWithin dist category lat lon threshold issues = [] := by
        rw [List.eq_nil_iff_forall_not_mem]
        intro p hp
        rw [mem_duplicatesWithin_iff] at hp
        exact hall p.1 hp.1 (hp.2.1 ▸ hp.2.2)
      unfold findDuplicate
      rw [hW]
  exact ⟨hmain, hnone, fun i dd hne hsome => hne ((hmain i dd hsome).2.1)⟩

/-- Witness for C4: with two open pothole reports at squared distances 1 and 81
and threshold 10, the nearer one is returned with its distance, and it has the
requested category. -/
theorem C4_witness :
    findDuplicate c5Dist "pothole" 0 0 10
        [{ baseIssue with longitude := 1 }, { baseIssue with longitude := 9 }] =
      some ({ baseIssue with longitude := 1 }, 1) ∧
    ({ baseIssue with longitude := 1 } : Issue).category = "pothole" :=
  have h : findDuplicate c5Dist "pothole" 0 0 10
      [{ baseIssue with longitude := 1 }, { baseIssue with longitude := 9 }] =
      some ({ baseIssue with longitude := 1 }, 1) := by
    norm_num [findDuplicate, duplicatesWithin, duplicateCandidates, betterDuplicate, c5Dist,
      baseIssue, List.filter, List.filterMap, List.foldl]
  ⟨h, ((C4_duplicate_detection c5Dist "pothole" 0 0 10
      [{ baseIssue with longitude := 1 }, { baseIssue with longitude := 9 }]).1
      { baseIssue with longitude := 1 } 1 h).2.1⟩
